import Mathlib

/-!
Verification development for the Workflow-Builder repository.

The core router, agent-node, executor, LLM-manager and settings code is
shallowly embedded over `List Char`.  Python regex character classes
(`\s`, `\w`) and `str.strip()` are modelled for ASCII characters, which
covers every string literal the source manipulates.  The regex patterns
used by the source (`MARKER\s*(\w+)\s*$` and `\s*MARKER\s*\w+\s*$`) are
anchored at the end of the string; they are embedded as explicit
left-to-right scans that mirror `re.search` / `re.sub` semantics (the
leftmost position whose suffix matches the whole anchored pattern).
-/

namespace WorkflowBuilder

/-- Whitespace test modelling the Python regex class backslash-s and
Python `str.strip` for ASCII characters. -/
def isWs (c : Char) : Bool :=
  c = ' ' || c = '\t' || c = '\n' || c = '\r' || c = Char.ofNat 11 || c = Char.ofNat 12

/-- Word-character test modelling the Python regex class backslash-w for
ASCII characters: letters, digits and underscore. -/
def isWordChar (c : Char) : Bool :=
  c.isAlphanum || c = '_'

/-! Reserved routing constants, from config/settings.py lines 39-47. -/

/-- config/settings.py: `self.routing_key_marker = "ROUTING_KEY:"`. -/
def routing_key_marker : List Char := "ROUTING_KEY:".toList

/-- config/settings.py: `self.default_routing_key = "__DEFAULT__"`. -/
def default_routing_key : List Char := "__DEFAULT__".toList

/-- config/settings.py: `self.end_node_id = "END"`. -/
def end_node_id : List Char := "END".toList

/-- The reserved `error` routing key used by AgentNode._create_error_state. -/
def error_key : List Char := "error".toList

/-- config/settings.py: `self.default_recursion_multiplier = 3`. -/
def default_recursion_multiplier : Nat := 3

/-- config/settings.py: `self.default_recursion_base = 10`. -/
def default_recursion_base : Nat := 10

/-! Association-list helpers modelling Python `dict` operations
(`d.get(k)`, `d[k] = v` on an insertion-ordered dict). -/

/-- Python `dict.get(k)` on an insertion-ordered association list. -/
def lookupA {β : Type} (k : List Char) : List (List Char × β) → Option β
  | [] => none
  | (a, b) :: t => if a = k then some b else lookupA k t

/-- Python `d[k] = v`: update in place when the key exists, else append. -/
def dictInsert {β : Type} (k : List Char) (v : β) : List (List Char × β) → List (List Char × β)
  | [] => [(k, v)]
  | (a, b) :: t => if a = k then (k, v) :: t else (a, b) :: dictInsert k v t

/-- Python `pat in s` substring test over character lists. -/
def containsSeq (pat : List Char) : List Char → Bool
  | [] => pat.isEmpty
  | c :: t => pat.isPrefixOf (c :: t) || containsSeq pat t

/-- Number of positions at which `pat` occurs as a substring. -/
def countSeq (pat : List Char) : List Char → Nat
  | [] => 0
  | c :: t => (if pat.isPrefixOf (c :: t) then 1 else 0) + countSeq pat t

/-- Remove maximal trailing whitespace (the right half of Python `str.strip`). -/
def dropTrailingWs : List Char → List Char
  | [] => []
  | c :: t =>
    match dropTrailingWs t with
    | [] => if isWs c then [] else [c]
    | r => c :: r

/-- Python `str.strip()` for ASCII whitespace. -/
def stripChars (l : List Char) : List Char := dropTrailingWs (l.dropWhile isWs)

/-! Embedding of the anchored regex scans shared by src/src/core/router.py
and src/src/nodes/agent_node.py. -/

/-- Match of the anchored pattern `MARKER\s*(\w+)\s*$` starting exactly at
the head of `l`, returning the captured group.  Greedy matching of the
disjoint classes backslash-s and backslash-w is equivalent to the
backtracking regex engine here. -/
def matchKeyAt (l : List Char) : Option (List Char) :=
  if routing_key_marker.isPrefixOf l then
    if ((l.drop routing_key_marker.length).dropWhile isWs).takeWhile isWordChar ≠ [] ∧
        (((l.drop routing_key_marker.length).dropWhile isWs).dropWhile
          isWordChar).dropWhile isWs = [] then
      some (((l.drop routing_key_marker.length).dropWhile isWs).takeWhile isWordChar)
    else none
  else none

/-- `re.search` of `MARKER\s*(\w+)\s*$`: scan left to right for the first
position whose whole suffix matches; return the text before the match
together with the captured key. -/
def searchKeySplit : List Char → Option (List Char × List Char)
  | [] => none
  | c :: t =>
    match matchKeyAt (c :: t) with
    | some w => some ([], w)
    | none => (searchKeySplit t).map (fun p => (c :: p.1, p.2))

/-- Router.extract_routing_key (src/src/core/router.py lines 19-43):
the captured group of the trailing-anchored search, or the default key. -/
def extract_routing_key (content : List Char) : List Char :=
  match searchKeySplit content with
  | some p => p.2
  | none => default_routing_key

/-- Match of the anchored pattern `\s*MARKER\s*\w+\s*$` starting exactly at
the head of `l`. -/
def matchCleanAt (l : List Char) : Bool :=
  (matchKeyAt (l.dropWhile isWs)).isSome

/-- Leftmost match position of `\s*MARKER\s*\w+\s*$`, as used by `re.sub`
in Router.clean_content; returns the text before the match. -/
def searchCleanSplit : List Char → Option (List Char)
  | [] => none
  | c :: t =>
    if matchCleanAt (c :: t) then some []
    else (searchCleanSplit t).map (fun p => c :: p)

/-- Router.clean_content (src/src/core/router.py lines 84-99):
`re.sub(pattern, "", content).strip()` where the pattern is the trailing
`\s*MARKER\s*\w+\s*$`; at most one match can end at the end of the string,
so substitution removes the single leftmost such match. -/
def clean_content (content : List Char) : List Char :=
  match searchCleanSplit content with
  | some pre => stripChars pre
  | none => stripChars content

/-! The workflow execution state (src/src/models/state.py is not under
src; its four fields are used verbatim by router.py and executor.py). -/

/-- WorkflowState: input, node_outputs, last_response_content,
current_node_id, exactly the four keys manipulated by executor.py
lines 43-48 and router.py line 56. -/
structure WorkflowState where
  input : List Char
  node_outputs : List (List Char × List Char)
  last_response_content : List Char
  current_node_id : List Char
deriving DecidableEq

/-- Router.route (src/src/core/router.py lines 45-82). -/
def route (state : WorkflowState) (path_map : List (List Char × List Char)) : List Char :=
  let last_content := state.last_response_content
  if last_content = [] then
    (lookupA default_routing_key path_map).getD end_node_id
  else
    let routing_key := extract_routing_key last_content
    match lookupA routing_key path_map with
    | some target => target
    | none => (lookupA default_routing_key path_map).getD end_node_id

/-! The node data model (src/src/models/node.py is not under src; the
fields below are the ones agent_node.py reads: id, name, prompt). -/

/-- Node data: id, name and prompt template. -/
structure Node where
  id : List Char
  name : List Char
  prompt : List Char
deriving DecidableEq

/-- Modelled from the spec: src/src/nodes/base.py (BaseNode.update_state)
is not under src.  Spec section 4.3 state update: set
`node_outputs[node.id] = content`, `last_response_content = content`,
`current_node_id = node.id`; `input` is left untouched. -/
def update_state (node : Node) (state : WorkflowState) (content : List Char) : WorkflowState :=
  { state with
    node_outputs := dictInsert node.id content state.node_outputs,
    last_response_content := content,
    current_node_id := node.id }

/-- AgentNode._ensure_routing_key (src/src/nodes/agent_node.py lines
229-264): re-uses the trailing-anchored search; a found key that is a
member of `possible_keys` leaves the content unchanged; otherwise the
matched region is substituted away, the remainder stripped, and the
default key appended in canonical spacing; with no match the default key
is appended to the untouched content. -/
def ensure_routing_key (possible_keys : List (List Char)) (content : List Char) : List Char :=
  match searchKeySplit content with
  | some (pre, extracted_key) =>
    if extracted_key ∈ possible_keys then content
    else stripChars pre ++ (' ' :: routing_key_marker ++ (' ' :: default_routing_key))
  | none => content ++ (' ' :: routing_key_marker ++ (' ' :: default_routing_key))

/-- The error content built by AgentNode._create_error_state
(src/src/nodes/agent_node.py line 281):
`f"ERROR: {error_msg} {marker} error"`. -/
def error_content_of (error_msg : List Char) : List Char :=
  "ERROR: ".toList ++ error_msg ++ (' ' :: routing_key_marker ++ (' ' :: error_key))

/-- AgentNode._create_error_state (src/src/nodes/agent_node.py lines
266-282). -/
def create_error_state (node : Node) (state : WorkflowState) (error_msg : List Char) : WorkflowState :=
  update_state node state (error_content_of error_msg)

/-- The detailed error text built in AgentNode.execute lines 100-108:
`error_msg = f"Error in node {name}: {msg}"` followed by
`f"{error_msg}\nDetails: {type}: {msg}"`. -/
def detailed_error (node : Node) (excType excMsg : List Char) : List Char :=
  let error_msg := "Error in node ".toList ++ node.name ++ ": ".toList ++ excMsg
  error_msg ++ "\nDetails: ".toList ++ excType ++ ": ".toList ++ excMsg

/-- Python `content.replace(pat, rep)`: replace every occurrence, left to
right, used by AgentNode._prepare_prompt. -/
def replaceSeq (pat rep : List Char) : List Char → List Char
  | [] => []
  | c :: t =>
    if pat ≠ [] ∧ pat.isPrefixOf (c :: t) then
      rep ++ replaceSeq pat rep (t.drop (pat.length - 1))
    else c :: replaceSeq pat rep t
termination_by l => l.length
decreasing_by
  · simp only [List.length_drop, List.length_cons]
    omega
  · simp [List.length_cons]

/-- The `\x7binput_text\x7d` placeholder literal of agent_node.py. -/
def input_text_placeholder : List Char := "\x7binput_text\x7d".toList

/-- AgentNode._prepare_prompt (src/src/nodes/agent_node.py lines 111-131). -/
def prepare_prompt (node : Node) (context_input : List Char) : List Char :=
  if containsSeq input_text_placeholder node.prompt then
    replaceSeq input_text_placeholder context_input node.prompt
  else if context_input ≠ [] then
    node.prompt ++ "\n\nInput Context:\n".toList ++ context_input
  else node.prompt

/-- The ASCII apostrophe used by the f-strings of
AgentNode._add_routing_instructions. -/
def quoteChar : Char := Char.ofNat 39

/-- AgentNode._add_routing_instructions (src/src/nodes/agent_node.py
lines 133-174). -/
def add_routing_instructions (node : Node) (possible_keys : List (List Char))
    (prompt : List Char) : List Char :=
  let current_task := "Current Task (".toList ++ node.name ++ "):\n".toList
    ++ prompt ++ "\n(Search web if needed).".toList
  let key_options := (possible_keys.filter
      (fun k => decide (k ≠ [] ∧ k ≠ default_routing_key))).map
      (fun k => quoteChar :: (k ++ [quoteChar]))
  let key_options_text :=
    if key_options = [] then "none".toList else List.intercalate ", ".toList key_options
  let routing_instruction :=
    if key_options_text = "none".toList then
      "\n\n--- ROUTING INSTRUCTIONS ---\nAfter your response, you MUST end with exactly: ".toList
      ++ (quoteChar :: (routing_key_marker ++ (' ' :: default_routing_key) ++ [quoteChar]))
      ++ "\nThis is the only valid routing key for this node.\n--- END ROUTING ---".toList
    else
      "\n\n--- ROUTING INSTRUCTIONS ---\nAfter your response, you MUST end with ".toList
      ++ (quoteChar :: (routing_key_marker ++ " <key>".toList ++ [quoteChar]))
      ++ " where <key> is ONE of these exact values: [".toList ++ key_options_text
      ++ "].\nIf none of these keys apply, use: ".toList
      ++ (quoteChar :: (routing_key_marker ++ (' ' :: default_routing_key) ++ [quoteChar]))
      ++ "\nIMPORTANT: Use ONLY the keys listed above. Do not create new keys.\nExample: ".toList
      ++ (quoteChar :: ("...your response here... ".toList ++ routing_key_marker
          ++ (' ' :: key_options.headD default_routing_key) ++ [quoteChar]))
      ++ "\n--- END ROUTING ---".toList
  current_task ++ routing_instruction

/-! The LLM result shapes sniffed by AgentNode._extract_content
(src/src/nodes/agent_node.py lines 176-227), decoded into a closed
variant type at the model boundary. -/

/-- One element of a list-shaped LLM `content` field. -/
inductive LLMItem where
  | dictWithText (t : List Char)
  | dictNoText
  | itemStr (s : List Char)
  | otherItem
deriving DecidableEq

/-- The `content` attribute of an LLM invocation result: absent, a plain
string, a list of items, or some other object together with its `str()`
rendering. -/
inductive LLMContent where
  | noContentAttr
  | contentStr (s : List Char)
  | contentList (items : List LLMItem)
  | contentOther (rendered : List Char)
deriving DecidableEq

/-- AgentNode._extract_content (src/src/nodes/agent_node.py lines
176-227): missing attribute yields the empty string; string content is
returned; a list yields its first item's `text` field (or the item
itself when it is a string, else the empty string); anything else is
stringified. -/
def extract_content : LLMContent → List Char
  | .noContentAttr => []
  | .contentStr s => s
  | .contentList [] => []
  | .contentList (item :: _) =>
    match item with
    | .dictWithText t => t
    | .dictNoText => []
    | .itemStr s => s
    | .otherItem => []
  | .contentOther rendered => rendered

/-- A Python exception, modelled as its type name and message. -/
structure PyExc where
  excType : List Char
  excMsg : List Char
deriving DecidableEq

/-- AgentNode.execute (src/src/nodes/agent_node.py lines 32-109).
The fallible collaborators are passed explicitly: `initOk` and `toolsOk`
model the two LLM-manager preconditions; `ctx` models prepare_context
(BaseNode, not under src) which may raise; `invokeRes` models the
LLM invocation on the assembled prompt, which may raise.  Every raise
inside the `try` block lands in the outer handler, which folds a
detailed error text into the state via _create_error_state. -/
def agent_execute (node : Node) (possible_keys : List (List Char))
    (initOk toolsOk : Bool)
    (ctx : Except PyExc (List Char))
    (invokeRes : List Char → Except PyExc LLMContent)
    (state : WorkflowState) : WorkflowState :=
  if initOk = false then create_error_state node state "LLM not initialized".toList
  else if toolsOk = false then create_error_state node state "LLM with tools not available".toList
  else
    match ctx with
    | .error e => create_error_state node state (detailed_error node e.excType e.excMsg)
    | .ok context_input =>
      let full_prompt := add_routing_instructions node possible_keys
        (prepare_prompt node context_input)
      match invokeRes full_prompt with
      | .error e => create_error_state node state (detailed_error node e.excType e.excMsg)
      | .ok result =>
        let response_content := extract_content result
        if stripChars response_content = [] then
          create_error_state node state
            (detailed_error node "ValueError".toList "LLM returned empty response".toList)
        else
          update_state node state (ensure_routing_key possible_keys response_content)

/-! LLM manager (src/src/core/llm.py). -/

/-- The mutable fields of LLMManager: whether `_llm` is set, whether
`_llm_with_tools` is set, and the `_initialized` flag. -/
structure LLMManagerState where
  llmSome : Bool
  llmWithToolsSome : Bool
  initializedFlag : Bool
deriving DecidableEq

/-- LLMManager.__init__ (src/src/core/llm.py lines 15-20). -/
def llm_manager_init : LLMManagerState := ⟨false, false, false⟩

/-- LLMManager.initialize (src/src/core/llm.py lines 22-61).
`configured` is `settings.is_openai_configured`; `constructionFails`
models an exception raised while constructing ChatOpenAI or binding
tools.  Returns the boolean result and the manager state afterwards. -/
def llm_initialize_fn (st : LLMManagerState) (configured : Bool)
    (constructionFails : Bool) : Bool × LLMManagerState :=
  if configured = false then (false, st)
  else if constructionFails then (false, ⟨false, false, false⟩)
  else (true, ⟨true, true, true⟩)

/-- LLMManager.is_initialized (src/src/core/llm.py lines 106-109):
`self._initialized and self._llm is not None`. -/
def llm_is_initialized (st : LLMManagerState) : Bool :=
  st.initializedFlag && st.llmSome

/-! Workflow executor (src/src/core/executor.py). -/

/-- WorkflowExecutor.execute (src/src/core/executor.py lines 20-79).
`graphInvoke` models `compiled_graph.invoke(initial_state, config)`:
it either returns a final state or raises; the raised exception carries
a message and, as a ghost component, the partial state the graph engine
had accumulated when it failed — the code has no access to it because
langgraph does not mutate the input dict, and the except branch reads
the untouched `initial_state`. -/
def executor_execute
    (graphInvoke : WorkflowState → Except (List Char × WorkflowState) WorkflowState)
    (initial_input : List Char) : WorkflowState × List (List Char) :=
  let initial_state : WorkflowState := ⟨initial_input, [], [], []⟩
  let execution_log : List (List Char) :=
    ["🚀 Starting workflow execution".toList,
     "📥 Input: ".toList ++ initial_input.take 200 ++ "...".toList]
  match graphInvoke initial_state with
  | .ok final_state =>
    (final_state, execution_log ++ ["✅ Workflow execution completed".toList])
  | .error (emsg, _partialState) =>
    let error_msg := "Workflow execution failed: ".toList ++ emsg
    let error_state : WorkflowState :=
      { input := initial_input,
        node_outputs := initial_state.node_outputs,
        last_response_content := "ERROR: ".toList ++ error_msg,
        current_node_id := initial_state.current_node_id }
    (error_state, execution_log ++ [("❌ ".toList ++ error_msg)])

/-- The summary dictionary built by
WorkflowExecutor.get_execution_summary (src/src/core/executor.py
lines 81-99). -/
structure ExecutionSummary where
  nodes_executed : Nat
  node_outputs : List (List Char × List Char)
  final_output : List Char
  current_node : List Char
  has_error : Bool
deriving DecidableEq

/-- WorkflowExecutor.get_execution_summary (src/src/core/executor.py
lines 81-99): `nodes_executed = len(node_outputs)` and
`has_error = "ERROR" in last_response_content`. -/
def get_execution_summary (final_state : WorkflowState) : ExecutionSummary :=
  { nodes_executed := final_state.node_outputs.length,
    node_outputs := final_state.node_outputs,
    final_output := final_state.last_response_content,
    current_node := final_state.current_node_id,
    has_error := containsSeq "ERROR".toList final_state.last_response_content }

/-! Graph builder and step-driven engine.  src/src/core/graph_builder.py
is not under src (only its caller src/src/ui/pages/builder.py is), so
the compiled-graph artefacts are modelled from the spec. -/

/-- Modelled from the spec: graph_builder.py is not under src.  Spec
section 4.2 step 2: per-node routing table = `conditional_targets`
merged with the singleton mapping of the default key to
`default_target`. -/
def build_path_map (conditional_targets : List (List Char × List Char))
    (default_target : List Char) : List (List Char × List Char) :=
  dictInsert default_routing_key default_target conditional_targets

/-- Modelled from the spec: graph_builder.py is not under src.  Spec
section 4.2 step 2: a node's `possible_keys` are the conditional-target
keys. -/
def possible_keys_of (conditional_targets : List (List Char × List Char)) : List (List Char) :=
  conditional_targets.map Prod.fst

/-- Modelled from the spec: graph_builder.py is not under src.  Spec
section 4.2 step 4: `recursion_limit = recursion_base +
recursion_multiplier * node_count`, with the defaults of
config/settings.py lines 45-47. -/
def recursion_limit_of (node_count : Nat) : Nat :=
  default_recursion_base + default_recursion_multiplier * node_count

/-- One compiled node: its executable step and its routing table. -/
structure CompiledNode where
  run : WorkflowState → WorkflowState
  path_map : List (List Char × List Char)

/-- Modelled from the spec: the compiled executable graph of spec
sections 3 and 4.2 — a table from node id to (step, routing table) plus
the entry node id. -/
structure CompiledGraph where
  entry : List Char
  nodes : List (List Char × CompiledNode)

/-- Modelled from the spec: the step-driven engine of spec sections 4.4
and 9 — run the current node, route on the produced state, repeat until
the terminal marker is reached or the step budget is exhausted.
Returns the final state, the node id the run stopped at, and the number
of executed node steps. -/
def runSteps (g : CompiledGraph) : Nat → WorkflowState → List Char →
    WorkflowState × List Char × Nat
  | 0, st, cur => (st, cur, 0)
  | fuel + 1, st, cur =>
    if cur = end_node_id then (st, cur, 0)
    else
      match lookupA cur g.nodes with
      | none => (st, cur, 0)
      | some node =>
        let st2 := node.run st
        let nxt := route st2 node.path_map
        let r := runSteps g fuel st2 nxt
        (r.1, r.2.1, r.2.2 + 1)

/-- A whole bounded run: initial state from the input, started at the
entry node with the recursion-limit step budget. -/
def run_workflow (g : CompiledGraph) (initial_input : List Char) (limit : Nat) :
    WorkflowState × List Char × Nat :=
  runSteps g limit ⟨initial_input, [], [], []⟩ g.entry

/-! The two-node cycle of spec scenario D: node A routes to B on key x,
node B routes to A on key y, and neither ever emits the default or
terminal key. -/

/-- Scenario D node A. -/
def nodeA : Node := ⟨"A".toList, "A".toList, "pa".toList⟩

/-- Scenario D node B. -/
def nodeB : Node := ⟨"B".toList, "B".toList, "pb".toList⟩

/-- Scenario D compiled cycle: A always answers with key x (to B),
B always answers with key y (to A). -/
def cycleGraph : CompiledGraph :=
  { entry := "A".toList,
    nodes :=
      [("A".toList,
        { run := fun st => update_state nodeA st "go ROUTING_KEY: x".toList,
          path_map := build_path_map [("x".toList, "B".toList)] end_node_id }),
       ("B".toList,
        { run := fun st => update_state nodeB st "back ROUTING_KEY: y".toList,
          path_map := build_path_map [("y".toList, "A".toList)] end_node_id })] }

/-- A one-node self-loop: node L always answers with key go, which routes
back to L — used to exhibit a run that executes the same node twice. -/
def nodeL : Node := ⟨"L".toList, "L".toList, "pl".toList⟩

/-- The compiled one-node self-loop. -/
def loopGraph : CompiledGraph :=
  { entry := "L".toList,
    nodes :=
      [("L".toList,
        { run := fun st => update_state nodeL st "again ROUTING_KEY: go".toList,
          path_map := build_path_map [("go".toList, "L".toList)] end_node_id })] }

/-- A partial-run state accumulated inside the graph engine before an
engine-level failure: one node output recorded, current node n1. -/
def partialW : WorkflowState :=
  ⟨"hi".toList, [("n1".toList, "out ROUTING_KEY: x".toList)],
    "out ROUTING_KEY: x".toList, "n1".toList⟩

/-! Helper lemmas about the list-scanning primitives. -/

theorem isPrefixOf_iff (p l : List Char) : p.isPrefixOf l = true ↔ ∃ r, l = p ++ r := by
  induction p generalizing l with
  | nil => simp [List.isPrefixOf]
  | cons a p ih =>
    cases l with
    | nil => simp [List.isPrefixOf]
    | cons b t =>
      simp only [List.isPrefixOf, Bool.and_eq_true, beq_iff_eq, ih, List.cons_append,
        List.cons.injEq]
      constructor
      · rintro ⟨h1, r, h2⟩
        exact ⟨r, h1.symm, h2⟩
      · rintro ⟨r, h1, h2⟩
        exact ⟨h1.symm, r, h2⟩

theorem isPrefixOf_append_self (p r : List Char) : p.isPrefixOf (p ++ r) = true :=
  (isPrefixOf_iff p (p ++ r)).mpr ⟨r, rfl⟩

theorem isPrefixOf_append_of {p a : List Char} (b : List Char)
    (h : p.isPrefixOf a = true) : p.isPrefixOf (a ++ b) = true := by
  rcases (isPrefixOf_iff p a).mp h with ⟨r, rfl⟩
  rw [List.append_assoc]
  exact isPrefixOf_append_self p (r ++ b)

theorem length_le_of_isPrefixOf {p l : List Char} (h : p.isPrefixOf l = true) :
    p.length ≤ l.length := by
  rcases (isPrefixOf_iff p l).mp h with ⟨r, rfl⟩
  simp

theorem containsSeq_iff (pat l : List Char) :
    containsSeq pat l = true ↔ ∃ a b, l = a ++ pat ++ b := by
  induction l with
  | nil =>
    cases pat with
    | nil => simp [containsSeq]
    | cons c t => simp [containsSeq]
  | cons c t ih =>
    simp only [containsSeq, Bool.or_eq_true, ih, isPrefixOf_iff]
    constructor
    · rintro (⟨r, hr⟩ | ⟨a, b, hab⟩)
      · exact ⟨[], r, by simpa using hr⟩
      · exact ⟨c :: a, b, by simp [hab]⟩
    · rintro ⟨a, b, hab⟩
      cases a with
      | nil => exact Or.inl ⟨b, by simpa using hab⟩
      | cons a0 a' =>
        simp only [List.cons_append, List.cons.injEq] at hab
        exact Or.inr ⟨a', b, hab.2⟩

theorem containsSeq_append_of_left {pat a : List Char} (b : List Char)
    (h : containsSeq pat a = true) : containsSeq pat (a ++ b) = true := by
  rcases (containsSeq_iff pat a).mp h with ⟨x, y, rfl⟩
  exact (containsSeq_iff pat _).mpr ⟨x, y ++ b, by simp⟩

theorem containsSeq_append_of_right {pat b : List Char} (a : List Char)
    (h : containsSeq pat b = true) : containsSeq pat (a ++ b) = true := by
  rcases (containsSeq_iff pat b).mp h with ⟨x, y, rfl⟩
  exact (containsSeq_iff pat _).mpr ⟨a ++ x, y, by simp⟩

theorem containsSeq_of_isPrefixOf {pat l : List Char} (h : pat.isPrefixOf l = true) :
    containsSeq pat l = true := by
  rcases (isPrefixOf_iff pat l).mp h with ⟨r, rfl⟩
  exact (containsSeq_iff pat _).mpr ⟨[], r, by simp⟩

theorem le_countSeq_append (pat a b : List Char) :
    countSeq pat b ≤ countSeq pat (a ++ b) := by
  induction a with
  | nil => simp
  | cons c t ih =>
    calc countSeq pat b ≤ countSeq pat (t ++ b) := ih
      _ ≤ countSeq pat (c :: (t ++ b)) := by simp [countSeq]
      _ = countSeq pat ((c :: t) ++ b) := by simp

theorem one_le_countSeq {pat l : List Char} (hp : pat ≠ [])
    (h : containsSeq pat l = true) : 1 ≤ countSeq pat l := by
  induction l with
  | nil =>
    cases pat with
    | nil => exact absurd rfl hp
    | cons c t => simp [containsSeq] at h
  | cons c t ih =>
    simp only [containsSeq, Bool.or_eq_true] at h
    rcases h with h | h
    · simp [countSeq, h]
    · have := ih h
      simp only [countSeq]
      omega

theorem two_le_countSeq_append {pat a b : List Char} (hp : pat ≠ [])
    (ha : containsSeq pat a = true) (hb : containsSeq pat b = true) :
    2 ≤ countSeq pat (a ++ b) := by
  induction a with
  | nil =>
    cases pat with
    | nil => exact absurd rfl hp
    | cons c t => simp [containsSeq] at ha
  | cons c t ih =>
    simp only [containsSeq, Bool.or_eq_true] at ha
    rcases ha with h | h
    · have h1 : pat.isPrefixOf (c :: (t ++ b)) = true := by
        have := isPrefixOf_append_of b h
        rwa [List.cons_append] at this
      have h2 : 1 ≤ countSeq pat (t ++ b) :=
        le_trans (one_le_countSeq hp hb) (le_countSeq_append pat t b)
      have hcount : countSeq pat ((c :: t) ++ b) =
          (if pat.isPrefixOf (c :: (t ++ b)) = true then 1 else 0) + countSeq pat (t ++ b) := by
        rw [List.cons_append]
        simp only [countSeq]
      rw [hcount, if_pos h1]
      omega
    · have h3 := ih h
      have hcount : countSeq pat ((c :: t) ++ b) =
          (if pat.isPrefixOf (c :: (t ++ b)) = true then 1 else 0) + countSeq pat (t ++ b) := by
        rw [List.cons_append]
        simp only [countSeq]
      rw [hcount]
      by_cases hpre : pat.isPrefixOf (c :: (t ++ b)) = true
      · rw [if_pos hpre]; omega
      · rw [if_neg hpre]; omega

/-! Character-class facts. -/

theorem eq_of_isWs {c : Char} (h : isWs c = true) :
    c = ' ' ∨ c = '\t' ∨ c = '\n' ∨ c = '\r' ∨ c = Char.ofNat 11 ∨ c = Char.ofNat 12 := by
  have h' := h
  simp only [isWs, Bool.or_eq_true, decide_eq_true_eq] at h'
  tauto

theorem not_word_of_ws {c : Char} (h : isWs c = true) : isWordChar c = false := by
  rcases eq_of_isWs h with rfl | rfl | rfl | rfl | rfl | rfl <;> decide

theorem not_ws_of_word {c : Char} (h : isWordChar c = true) : isWs c = false := by
  cases hw : isWs c with
  | false => rfl
  | true => exact absurd h (by simp [not_word_of_ws hw])

/-! takeWhile / dropWhile helpers. -/

theorem dropWhile_append_all {p : Char → Bool} {a : List Char} (m : List Char)
    (h : ∀ c ∈ a, p c = true) : (a ++ m).dropWhile p = m.dropWhile p := by
  induction a with
  | nil => rfl
  | cons c t ih =>
    have hc : p c = true := h c (by simp)
    simp only [List.cons_append, List.dropWhile_cons, hc, if_true]
    exact ih (fun x hx => h x (by simp [hx]))

theorem takeWhile_append_all {p : Char → Bool} {a : List Char} (m : List Char)
    (h : ∀ c ∈ a, p c = true) : (a ++ m).takeWhile p = a ++ m.takeWhile p := by
  induction a with
  | nil => rfl
  | cons c t ih =>
    have hc : p c = true := h c (by simp)
    simp only [List.cons_append, List.takeWhile_cons, hc, if_true]
    rw [ih (fun x hx => h x (by simp [hx]))]

theorem takeWhile_of_all {p : Char → Bool} {l : List Char}
    (h : ∀ c ∈ l, p c = true) : l.takeWhile p = l := by
  have := takeWhile_append_all (p := p) (a := l) [] h
  simpa using this

theorem dropWhile_of_all {p : Char → Bool} {l : List Char}
    (h : ∀ c ∈ l, p c = true) : l.dropWhile p = [] :=
  List.dropWhile_eq_nil_iff.mpr h

theorem dropWhile_cons_neg {p : Char → Bool} {c : Char} (t : List Char)
    (h : p c = false) : (c :: t).dropWhile p = c :: t := by
  simp [List.dropWhile_cons, h]

theorem takeWhile_cons_neg {p : Char → Bool} {c : Char} (t : List Char)
    (h : p c = false) : (c :: t).takeWhile p = [] := by
  simp [List.takeWhile_cons, h]

theorem takeWhile_word_of_all_ws {b : List Char} (h : ∀ c ∈ b, isWs c = true) :
    b.takeWhile isWordChar = [] := by
  cases b with
  | nil => rfl
  | cons c t => exact takeWhile_cons_neg t (not_word_of_ws (h c (by simp)))

/-! str.strip decomposition. -/

theorem dropTrailingWs_cons (c : Char) (t : List Char) :
    dropTrailingWs (c :: t) =
      match dropTrailingWs t with
      | [] => if isWs c then [] else [c]
      | r => c :: r := rfl

theorem dropTrailingWs_decomp (l : List Char) :
    ∃ b, l = dropTrailingWs l ++ b ∧ ∀ c ∈ b, isWs c = true := by
  induction l with
  | nil => exact ⟨[], rfl, by simp⟩
  | cons c t ih =>
    rcases ih with ⟨b, hb, hall⟩
    cases hr : dropTrailingWs t with
    | nil =>
      have htb : t = b := by rw [hr] at hb; simpa using hb
      cases hc : isWs c with
      | true =>
        have hd : dropTrailingWs (c :: t) = [] := by
          rw [dropTrailingWs_cons, hr]
          simp [hc]
        refine ⟨c :: t, by simp [hd], ?_⟩
        intro x hx
        rcases List.mem_cons.mp hx with rfl | hx
        · exact hc
        · exact hall x (htb ▸ hx)
      | false =>
        have hd : dropTrailingWs (c :: t) = [c] := by
          rw [dropTrailingWs_cons, hr]
          simp [hc]
        refine ⟨b, ?_, hall⟩
        rw [hd]
        simpa using congrArg (fun x => c :: x) htb
    | cons r0 r' =>
      have hd : dropTrailingWs (c :: t) = c :: dropTrailingWs t := by
        rw [dropTrailingWs_cons, hr]
      refine ⟨b, ?_, hall⟩
      rw [hd]
      simpa using congrArg (fun x => c :: x) hb

theorem stripChars_decomp (l : List Char) :
    ∃ a b, l = a ++ stripChars l ++ b ∧ (∀ c ∈ a, isWs c = true) ∧ ∀ c ∈ b, isWs c = true := by
  rcases dropTrailingWs_decomp (l.dropWhile isWs) with ⟨b, hb, hall⟩
  refine ⟨l.takeWhile isWs, b, ?_, ?_, hall⟩
  · conv_lhs => rw [(List.takeWhile_append_dropWhile isWs l).symm]
    rw [stripChars, List.append_assoc, hb.symm]
  · intro c hc
    exact List.mem_takeWhile_imp hc

theorem containsSeq_of_stripChars {pat l : List Char}
    (h : containsSeq pat (stripChars l) = true) : containsSeq pat l = true := by
  rcases stripChars_decomp l with ⟨a, b, hl, -, -⟩
  rw [hl]
  exact containsSeq_append_of_left b (containsSeq_append_of_right a h)

/-! Association-list lemmas. -/

theorem lookupA_mem {β : Type} {k : List Char} {v : β} {m : List (List Char × β)}
    (h : lookupA k m = some v) : (k, v) ∈ m := by
  induction m with
  | nil => simp [lookupA] at h
  | cons p t ih =>
    obtain ⟨a, b⟩ := p
    by_cases hak : a = k
    · subst hak
      have hbv : b = v := by simpa [lookupA] using h
      subst hbv
      exact List.mem_cons_self _ _
    · simp only [lookupA, hak, if_false] at h
      exact List.mem_cons_of_mem _ (ih h)

theorem lookupA_isSome_of_mem_keys {β : Type} {k : List Char} {m : List (List Char × β)}
    (h : k ∈ m.map Prod.fst) : (lookupA k m).isSome = true := by
  induction m with
  | nil => simp at h
  | cons p t ih =>
    obtain ⟨a, b⟩ := p
    by_cases hak : a = k
    · simp [lookupA, hak]
    · rw [List.map_cons] at h
      rcases List.mem_cons.mp h with h1 | h1
      · exact absurd h1.symm hak
      · have hrec := ih h1
        simpa [lookupA, hak] using hrec

theorem lookupA_dictInsert_self {β : Type} (k : List Char) (v : β)
    (m : List (List Char × β)) : lookupA k (dictInsert k v m) = some v := by
  induction m with
  | nil => simp [dictInsert, lookupA]
  | cons p t ih =>
    obtain ⟨a, b⟩ := p
    by_cases hak : a = k
    · simp [dictInsert, hak, lookupA]
    · simp [dictInsert, hak, lookupA, ih]

theorem lookupA_dictInsert_ne {β : Type} {k d : List Char} (v : β)
    (m : List (List Char × β)) (h : k ≠ d) :
    lookupA k (dictInsert d v m) = lookupA k m := by
  induction m with
  | nil =>
    simp only [dictInsert, lookupA]
    rw [if_neg (fun hdk => h hdk.symm)]
  | cons p t ih =>
    obtain ⟨a, b⟩ := p
    by_cases had : a = d
    · subst had
      simp only [dictInsert, if_pos rfl, lookupA]
      rw [if_neg (fun hak => h hak.symm), if_neg (fun hak => h hak.symm)]
    · by_cases hak : a = k
      · simp [dictInsert, had, lookupA, hak, h]
      · simp [dictInsert, had, lookupA, hak, h, ih]

/-! Lemmas about the anchored-pattern scans. -/

theorem matchKeyAt_nil : matchKeyAt ([] : List Char) = none := by decide

theorem searchKeySplit_cons (c : Char) (t : List Char) :
    searchKeySplit (c :: t) =
      match matchKeyAt (c :: t) with
      | some w => some (([] : List Char), w)
      | none => (searchKeySplit t).map (fun p => (c :: p.1, p.2)) := rfl

theorem searchCleanSplit_cons (c : Char) (t : List Char) :
    searchCleanSplit (c :: t) =
      if matchCleanAt (c :: t) then some ([] : List Char)
      else (searchCleanSplit t).map (fun p => c :: p) := rfl

theorem marker_head : routing_key_marker = 'R' :: "OUTING_KEY:".toList := by decide

theorem matchKeyAt_eq_none_of_head_ne {c : Char} (x : List Char) (h : c ≠ 'R') :
    matchKeyAt (c :: x) = none := by
  have hpre : ¬ routing_key_marker.isPrefixOf (c :: x) = true := by
    intro hp
    rcases (isPrefixOf_iff _ _).mp hp with ⟨r, hr⟩
    rw [marker_head, List.cons_append] at hr
    simp only [List.cons.injEq] at hr
    exact h hr.1
  simp [matchKeyAt, hpre]

theorem matchKeyAt_some_spec {l w : List Char} (h : matchKeyAt l = some w) :
    routing_key_marker.isPrefixOf l = true ∧
    w = ((l.drop routing_key_marker.length).dropWhile isWs).takeWhile isWordChar ∧
    w ≠ [] ∧
    (((l.drop routing_key_marker.length).dropWhile isWs).dropWhile
      isWordChar).dropWhile isWs = [] := by
  by_cases hpre : routing_key_marker.isPrefixOf l = true
  · refine ⟨hpre, ?_⟩
    unfold matchKeyAt at h
    rw [if_pos hpre] at h
    by_cases hcond : ((l.drop routing_key_marker.length).dropWhile isWs).takeWhile
        isWordChar ≠ [] ∧
        (((l.drop routing_key_marker.length).dropWhile isWs).dropWhile
          isWordChar).dropWhile isWs = []
    · rw [if_pos hcond] at h
      have hw : w = ((l.drop routing_key_marker.length).dropWhile isWs).takeWhile
          isWordChar := (Option.some.inj h).symm
      exact ⟨hw, by rw [hw]; exact hcond.1, hcond.2⟩
    · rw [if_neg hcond] at h
      exact absurd h (by simp)
  · unfold matchKeyAt at h
    rw [if_neg hpre] at h
    exact absurd h (by simp)

theorem matchKeyAt_all_ws_word {l w : List Char} (h : matchKeyAt l = some w) :
    ∀ x ∈ l.drop routing_key_marker.length, (isWs x || isWordChar x) = true := by
  obtain ⟨hpre, hw, hne, hr3⟩ := matchKeyAt_some_spec h
  intro x hx
  rw [← List.takeWhile_append_dropWhile (p := isWs)
    (l := l.drop routing_key_marker.length)] at hx
  rcases List.mem_append.mp hx with hx | hx
  · simp [List.mem_takeWhile_imp hx]
  · rw [← List.takeWhile_append_dropWhile (p := isWordChar)
      (l := (l.drop routing_key_marker.length).dropWhile isWs)] at hx
    rcases List.mem_append.mp hx with hx | hx
    · simp [List.mem_takeWhile_imp hx]
    · have := List.dropWhile_eq_nil_iff.mp hr3 x hx
      simp [this]

theorem colon_mem_front : ∀ k : Nat, k < 13 → ':' ∈ (' ' :: routing_key_marker).drop k := by
  decide

theorem colon_mem_tail_drop {k : Nat} (hk : k ≤ 12) (rest : List Char) :
    ':' ∈ ((' ' :: routing_key_marker) ++ rest).drop k := by
  rw [List.drop_append_eq_append_drop]
  exact List.mem_append_left _ (colon_mem_front k (by omega))

theorem matchKeyAt_none_before_tail (c : Char) (A rest : List Char) :
    matchKeyAt (c :: (A ++ ((' ' :: routing_key_marker) ++ rest))) = none := by
  cases hm : matchKeyAt (c :: (A ++ ((' ' :: routing_key_marker) ++ rest))) with
  | none => rfl
  | some w =>
    exfalso
    have hall := matchKeyAt_all_ws_word hm
    have hsplit : c :: (A ++ ((' ' :: routing_key_marker) ++ rest)) =
        (c :: A) ++ ((' ' :: routing_key_marker) ++ rest) := by simp
    have hcolon : ':' ∈ (c :: (A ++ ((' ' :: routing_key_marker) ++ rest))).drop
        routing_key_marker.length := by
      rw [hsplit, List.drop_append_eq_append_drop]
      refine List.mem_append_right _ ?_
      exact colon_mem_tail_drop (by
        have hlen : routing_key_marker.length = 12 := by decide
        rw [hlen]
        omega) rest
    exact absurd (hall ':' hcolon) (by decide)

theorem matchKeyAt_marker_space {w : List Char} (hw : w ≠ [])
    (hall : ∀ c ∈ w, isWordChar c = true) :
    matchKeyAt (routing_key_marker ++ (' ' :: w)) = some w := by
  obtain ⟨w0, w', rfl⟩ := List.exists_cons_of_ne_nil hw
  have hw0 : isWordChar w0 = true := hall w0 (by simp)
  have hpre := isPrefixOf_append_self routing_key_marker (' ' :: (w0 :: w'))
  have hdrop := List.drop_left routing_key_marker (' ' :: (w0 :: w'))
  have h1 : (' ' :: (w0 :: w')).dropWhile isWs = w0 :: w' := by
    rw [List.dropWhile_cons]
    simp only [show isWs ' ' = true from by decide, if_true]
    exact dropWhile_cons_neg w' (not_ws_of_word hw0)
  have h2 : (w0 :: w').takeWhile isWordChar = w0 :: w' := takeWhile_of_all hall
  have h3 : (w0 :: w').dropWhile isWordChar = [] := dropWhile_of_all hall
  unfold matchKeyAt
  rw [if_pos hpre, hdrop, h1, h2, h3]
  simp

theorem searchKeySplit_canonical (A : List Char) {w : List Char} (hw : w ≠ [])
    (hall : ∀ c ∈ w, isWordChar c = true) :
    searchKeySplit (A ++ (' ' :: (routing_key_marker ++ (' ' :: w)))) =
      some (A ++ [' '], w) := by
  induction A with
  | nil =>
    have hm1 : matchKeyAt (' ' :: (routing_key_marker ++ (' ' :: w))) = none :=
      matchKeyAt_eq_none_of_head_ne _ (by decide)
    have hm2 : searchKeySplit (routing_key_marker ++ (' ' :: w)) = some ([], w) := by
      rw [marker_head, List.cons_append, searchKeySplit_cons, ← List.cons_append,
        ← marker_head, matchKeyAt_marker_space hw hall]
    rw [List.nil_append, searchKeySplit_cons, hm1, hm2]
    rfl
  | cons c A' ih =>
    have hm : matchKeyAt (c :: (A' ++ (' ' :: (routing_key_marker ++ (' ' :: w))))) =
        none := by
      have hre : (' ' :: (routing_key_marker ++ (' ' :: w))) =
          (' ' :: routing_key_marker) ++ (' ' :: w) := by simp
      rw [hre]
      exact matchKeyAt_none_before_tail c A' (' ' :: w)
    rw [List.cons_append, searchKeySplit_cons, hm, ih]
    rfl

theorem searchKeySplit_some {l pre w : List Char}
    (h : searchKeySplit l = some (pre, w)) :
    ∃ suf, l = pre ++ suf ∧ matchKeyAt suf = some w := by
  induction l generalizing pre with
  | nil => simp [searchKeySplit] at h
  | cons c t ih =>
    cases hm : matchKeyAt (c :: t) with
    | some w' =>
      rw [searchKeySplit_cons, hm] at h
      simp only [Option.some.injEq, Prod.mk.injEq] at h
      exact ⟨c :: t, by simp [← h.1], by rw [hm, h.2]⟩
    | none =>
      rw [searchKeySplit_cons, hm] at h
      cases hs : searchKeySplit t with
      | none => rw [hs] at h; simp at h
      | some p =>
        obtain ⟨p1, p2⟩ := p
        rw [hs] at h
        simp only [Option.map_some', Option.some.injEq, Prod.mk.injEq] at h
        obtain ⟨h1, h2⟩ := h
        subst h2
        rcases ih hs with ⟨suf, hsuf, hmm⟩
        refine ⟨suf, ?_, hmm⟩
        rw [← h1, List.cons_append, ← hsuf]

theorem searchCleanSplit_some {l pre : List Char}
    (h : searchCleanSplit l = some pre) :
    ∃ suf, l = pre ++ suf ∧ matchCleanAt suf = true := by
  induction l generalizing pre with
  | nil => simp [searchCleanSplit] at h
  | cons c t ih =>
    cases hm : matchCleanAt (c :: t) with
    | true =>
      rw [searchCleanSplit_cons, if_pos hm] at h
      simp only [Option.some.injEq] at h
      exact ⟨c :: t, by simp [← h], hm⟩
    | false =>
      rw [searchCleanSplit_cons, if_neg (by simp [hm])] at h
      cases hs : searchCleanSplit t with
      | none => rw [hs] at h; simp at h
      | some p =>
        rw [hs] at h
        simp only [Option.map_some', Option.some.injEq] at h
        rcases ih hs with ⟨suf, hsuf, hmm⟩
        exact ⟨suf, by rw [← h, List.cons_append, ← hsuf], hmm⟩

theorem searchKeySplit_isSome_of_tail {a b w : List Char}
    (hm : matchKeyAt b = some w) : (searchKeySplit (a ++ b)).isSome = true := by
  induction a with
  | nil =>
    cases b with
    | nil => rw [matchKeyAt_nil] at hm; simp at hm
    | cons c t => simp [searchKeySplit, hm]
  | cons c a' ih =>
    cases hm2 : matchKeyAt (c :: (a' ++ b)) with
    | some w2 =>
      rw [List.cons_append, searchKeySplit_cons, hm2]
      rfl
    | none =>
      rw [List.cons_append, searchKeySplit_cons, hm2]
      simpa [Option.isSome_map'] using ih

theorem searchCleanSplit_isSome_of_tail {a b : List Char}
    (hm : matchCleanAt b = true) : (searchCleanSplit (a ++ b)).isSome = true := by
  induction a with
  | nil =>
    cases b with
    | nil => exact absurd hm (by decide)
    | cons c t => simp [searchCleanSplit, hm]
  | cons c a' ih =>
    cases hm2 : matchCleanAt (c :: (a' ++ b)) with
    | true =>
      rw [List.cons_append, searchCleanSplit_cons, if_pos hm2]
      rfl
    | false =>
      rw [List.cons_append, searchCleanSplit_cons, if_neg (by simp [hm2])]
      simpa [Option.isSome_map'] using ih

theorem containsSeq_marker_of_matchKeyAt {l w : List Char}
    (h : matchKeyAt l = some w) : containsSeq routing_key_marker l = true :=
  containsSeq_of_isPrefixOf (matchKeyAt_some_spec h).1

theorem containsSeq_marker_of_matchCleanAt {l : List Char}
    (h : matchCleanAt l = true) : containsSeq routing_key_marker l = true := by
  unfold matchCleanAt at h
  cases hm : matchKeyAt (l.dropWhile isWs) with
  | none => rw [hm] at h; simp at h
  | some w =>
    have h1 := containsSeq_marker_of_matchKeyAt hm
    have h2 := List.takeWhile_append_dropWhile (p := isWs) (l := l)
    rw [← h2]
    exact containsSeq_append_of_right _ h1

theorem containsSeq_marker_of_searchKeySplit {l : List Char} {p : List Char × List Char}
    (h : searchKeySplit l = some p) : containsSeq routing_key_marker l = true := by
  obtain ⟨p1, p2⟩ := p
  rcases searchKeySplit_some h with ⟨suf, rfl, hm⟩
  exact containsSeq_append_of_right _ (containsSeq_marker_of_matchKeyAt hm)

theorem ws_word_block {tw w r2 b : List Char}
    (htw : ∀ c ∈ tw, isWs c = true) (hwall : ∀ c ∈ w, isWordChar c = true)
    (hr2 : ∀ c ∈ r2, isWs c = true) (hb : ∀ c ∈ b, isWs c = true) (hne : w ≠ []) :
    (tw ++ ((w ++ r2) ++ b)).dropWhile isWs = (w ++ r2) ++ b ∧
    ((w ++ r2) ++ b).takeWhile isWordChar = w ∧
    ((w ++ r2) ++ b).dropWhile isWordChar = r2 ++ b ∧
    (r2 ++ b).dropWhile isWs = [] := by
  obtain ⟨w0, w', rfl⟩ := List.exists_cons_of_ne_nil hne
  have hw0 : isWordChar w0 = true := hwall w0 (by simp)
  have hr2b : ∀ c ∈ r2 ++ b, isWs c = true := by
    intro c hc
    rcases List.mem_append.mp hc with hc | hc
    · exact hr2 c hc
    · exact hb c hc
  refine ⟨?_, ?_, ?_, dropWhile_of_all hr2b⟩
  · rw [dropWhile_append_all _ htw, List.cons_append, List.cons_append]
    exact dropWhile_cons_neg _ (not_ws_of_word hw0)
  · rw [List.append_assoc, takeWhile_append_all _ hwall,
      takeWhile_word_of_all_ws hr2b, List.append_nil]
  · rw [List.append_assoc, dropWhile_append_all _ hwall]
    cases hrb : r2 ++ b with
    | nil => rfl
    | cons x xs =>
      exact dropWhile_cons_neg _ (not_word_of_ws (hr2b x (by rw [hrb]; simp)))

theorem matchKeyAt_append_ws {suf w b : List Char} (hm : matchKeyAt suf = some w)
    (hb : ∀ c ∈ b, isWs c = true) : matchKeyAt (suf ++ b) = some w := by
  obtain ⟨hpre, hw, hne, hr3⟩ := matchKeyAt_some_spec hm
  have hlen : routing_key_marker.length ≤ suf.length := length_le_of_isPrefixOf hpre
  have hdrop : (suf ++ b).drop routing_key_marker.length =
      suf.drop routing_key_marker.length ++ b := by
    rw [List.drop_append_eq_append_drop]
    have h0 : routing_key_marker.length - suf.length = 0 := by omega
    rw [h0, List.drop_zero]
  have hallts : ∀ c ∈ (suf.drop routing_key_marker.length).takeWhile isWs, isWs c = true :=
    fun c hc => List.mem_takeWhile_imp hc
  have hallw : ∀ c ∈ w, isWordChar c = true := by
    intro c hc
    rw [hw] at hc
    exact List.mem_takeWhile_imp hc
  have hallr2 : ∀ c ∈ ((suf.drop routing_key_marker.length).dropWhile isWs).dropWhile
      isWordChar, isWs c = true := List.dropWhile_eq_nil_iff.mp hr3
  have hr1split : (suf.drop routing_key_marker.length).dropWhile isWs =
      w ++ ((suf.drop routing_key_marker.length).dropWhile isWs).dropWhile isWordChar := by
    rw [hw]
    exact (List.takeWhile_append_dropWhile ..).symm
  have hA : suf.drop routing_key_marker.length ++ b =
      (suf.drop routing_key_marker.length).takeWhile isWs ++
        ((w ++ ((suf.drop routing_key_marker.length).dropWhile isWs).dropWhile
          isWordChar) ++ b) := by
    rw [← List.append_assoc, ← hr1split, List.takeWhile_append_dropWhile]
  obtain ⟨c1, c2, c3, c4⟩ := ws_word_block hallts hallw hallr2 hb hne
  unfold matchKeyAt
  rw [if_pos (isPrefixOf_append_of b hpre), hdrop, hA, c1, c2, c3, c4]
  simp [hne]

/-! Derived facts feeding the claim theorems. -/

theorem lookupA_mem_snd {β : Type} {k : List Char} {v : β} {m : List (List Char × β)}
    (h : lookupA k m = some v) : v ∈ m.map Prod.snd :=
  List.mem_map.mpr ⟨(k, v), lookupA_mem h, rfl⟩

theorem extract_error_content (msg : List Char) :
    extract_routing_key (error_content_of msg) = error_key := by
  have h := searchKeySplit_canonical ("ERROR: ".toList ++ msg) (w := error_key)
    (by decide) (by decide)
  have he : error_content_of msg =
      ("ERROR: ".toList ++ msg) ++ (' ' :: (routing_key_marker ++ (' ' :: error_key))) := by
    simp [error_content_of]
  unfold extract_routing_key
  rw [he, h]

theorem extract_of_searchKeySplit {content pre w : List Char}
    (h : searchKeySplit content = some (pre, w)) :
    extract_routing_key content = w := by
  simp [extract_routing_key, h]

theorem extract_ensure_mem (pk : List (List Char)) (content : List Char) :
    extract_routing_key (ensure_routing_key pk content) ∈ pk ∨
    extract_routing_key (ensure_routing_key pk content) = default_routing_key := by
  cases hs : searchKeySplit content with
  | some p =>
    obtain ⟨pre, w⟩ := p
    by_cases hmem : w ∈ pk
    · left
      have he : ensure_routing_key pk content = content := by
        simp [ensure_routing_key, hs, hmem]
      rw [he, extract_of_searchKeySplit hs]
      exact hmem
    · right
      have he : ensure_routing_key pk content =
          stripChars pre ++ (' ' :: routing_key_marker ++ (' ' :: default_routing_key)) := by
        simp [ensure_routing_key, hs, hmem]
      rw [he]
      have h := searchKeySplit_canonical (stripChars pre) (w := default_routing_key)
        (by decide) (by decide)
      unfold extract_routing_key
      simp only [List.cons_append]
      rw [h]
  | none =>
    right
    have he : ensure_routing_key pk content =
        content ++ (' ' :: routing_key_marker ++ (' ' :: default_routing_key)) := by
      simp [ensure_routing_key, hs]
    rw [he]
    have h := searchKeySplit_canonical content (w := default_routing_key)
      (by decide) (by decide)
    unfold extract_routing_key
    simp only [List.cons_append]
    rw [h]

theorem lookupA_build_path_map_default (c : List (List Char × List Char))
    (dt : List Char) : lookupA default_routing_key (build_path_map c dt) = some dt :=
  lookupA_dictInsert_self _ _ _

theorem lookupA_build_path_map_possible {c : List (List Char × List Char)}
    {dt k : List Char} (h : k ∈ possible_keys_of c) :
    (lookupA k (build_path_map c dt)).isSome = true := by
  by_cases hd : k = default_routing_key
  · rw [hd]
    unfold build_path_map
    rw [lookupA_dictInsert_self]
    rfl
  · unfold build_path_map
    rw [lookupA_dictInsert_ne _ _ hd]
    exact lookupA_isSome_of_mem_keys h

theorem error_state_spec (node : Node) (state : WorkflowState) (msg : List Char) :
    (create_error_state node state msg).last_response_content = error_content_of msg ∧
    lookupA node.id (create_error_state node state msg).node_outputs =
      some (error_content_of msg) ∧
    extract_routing_key (create_error_state node state msg).last_response_content =
      error_key := by
  refine ⟨rfl, ?_, extract_error_content msg⟩
  exact lookupA_dictInsert_self _ _ _

theorem runSteps_steps_le (g : CompiledGraph) :
    ∀ (fuel : Nat) (st : WorkflowState) (cur : List Char),
      (runSteps g fuel st cur).2.2 ≤ fuel := by
  intro fuel
  induction fuel with
  | zero =>
    intro st cur
    simp [runSteps]
  | succ n ih =>
    intro st cur
    by_cases hend : cur = end_node_id
    · simp [runSteps, hend]
    · cases hn : lookupA cur g.nodes with
      | none => simp [runSteps, hend, hn]
      | some node =>
        have hrec := ih (node.run st) (route (node.run st) node.path_map)
        simp [runSteps, hend, hn]
        omega

theorem dictInsert_cons {β : Type} (k : List Char) (v : β) (a : List Char) (b : β)
    (t : List (List Char × β)) :
    dictInsert k v ((a, b) :: t) =
      if a = k then (k, v) :: t else (a, b) :: dictInsert k v t := rfl

theorem mem_keys_dictInsert {β : Type} {x k : List Char} {v : β}
    {m : List (List Char × β)} (h : x ∈ (dictInsert k v m).map Prod.fst) :
    x = k ∨ x ∈ m.map Prod.fst := by
  induction m with
  | nil =>
    have e : (dictInsert k v ([] : List (List Char × β))).map Prod.fst = [k] := rfl
    rw [e] at h
    exact Or.inl (by simpa using h)
  | cons p t ih =>
    obtain ⟨a, b⟩ := p
    by_cases hak : a = k
    · rw [dictInsert_cons, if_pos hak, List.map_cons] at h
      rcases List.mem_cons.mp h with h1 | h1
      · exact Or.inl h1
      · exact Or.inr (by rw [List.map_cons]; exact List.mem_cons_of_mem _ h1)
    · rw [dictInsert_cons, if_neg hak, List.map_cons] at h
      rcases List.mem_cons.mp h with h1 | h1
      · refine Or.inr ?_
        subst h1
        rw [List.map_cons]
        exact List.mem_cons_self _ _
      · rcases ih h1 with h2 | h2
        · exact Or.inl h2
        · exact Or.inr (by rw [List.map_cons]; exact List.mem_cons_of_mem _ h2)

theorem dictInsert_keys_nodup {β : Type} (k : List Char) (v : β)
    {m : List (List Char × β)} (h : (m.map Prod.fst).Nodup) :
    ((dictInsert k v m).map Prod.fst).Nodup := by
  induction m with
  | nil =>
    have e : (dictInsert k v ([] : List (List Char × β))).map Prod.fst = [k] := rfl
    rw [e]
    simp
  | cons p t ih =>
    obtain ⟨a, b⟩ := p
    rw [List.map_cons, List.nodup_cons] at h
    by_cases hak : a = k
    · rw [dictInsert_cons, if_pos hak, List.map_cons, List.nodup_cons]
      exact ⟨hak ▸ h.1, h.2⟩
    · rw [dictInsert_cons, if_neg hak, List.map_cons, List.nodup_cons]
      refine ⟨?_, ih h.2⟩
      intro hmem
      rcases mem_keys_dictInsert hmem with h1 | h1
      · exact hak h1
      · exact h.1 h1

/-! Claim theorems. -/

/-- C1 counterexample: with an empty last response and a path_map mapping
only the default key to node id n2, Router.route returns n2, which is
neither a key of the path_map nor the terminal marker END — refuting the
claim that route always returns a key of path_map or END. -/
theorem C1_route_not_key_counterexample :
    route ⟨"hi".toList, [], [], []⟩ [(default_routing_key, "n2".toList)] = "n2".toList ∧
    "n2".toList ∉ ([(default_routing_key, "n2".toList)]).map Prod.fst ∧
    "n2".toList ≠ end_node_id := by decide

/-- C1 (amended): Router.route, a total function over every workflow state
and path_map, always returns either the terminal marker END or one of the
path_map's values (the target of some entry); it never returns any other
string and, being total, never raises. -/
theorem C1_route_returns_value_or_end (state : WorkflowState)
    (path_map : List (List Char × List Char)) :
    route state path_map = end_node_id ∨
    route state path_map ∈ path_map.map Prod.snd := by
  by_cases hlast : state.last_response_content = []
  · cases hd : lookupA default_routing_key path_map with
    | none => exact Or.inl (by simp [route, hlast, hd])
    | some v =>
      refine Or.inr ?_
      have hv := lookupA_mem_snd hd
      simpa [route, hlast, hd] using hv
  · cases ht : lookupA (extract_routing_key state.last_response_content) path_map with
    | some target =>
      refine Or.inr ?_
      have hv := lookupA_mem_snd ht
      simpa [route, hlast, ht] using hv
    | none =>
      cases hd : lookupA default_routing_key path_map with
      | none => exact Or.inl (by simp [route, hlast, ht, hd])
      | some v =>
        refine Or.inr ?_
        have hv := lookupA_mem_snd hd
        simpa [route, hlast, ht, hd] using hv

/-- C2 counterexample: for a content string containing the marker twice,
clean_content removes only the final marker+key; the cleaned text still
ends in a marker+key occurrence and re-extraction returns that key x,
not the default key — refuting the claim for multi-marker strings. -/
theorem C2_clean_double_marker_counterexample :
    clean_content "A ROUTING_KEY: x ROUTING_KEY: y".toList = "A ROUTING_KEY: x".toList ∧
    (searchKeySplit (clean_content "A ROUTING_KEY: x ROUTING_KEY: y".toList)).isSome
      = true ∧
    extract_routing_key (clean_content "A ROUTING_KEY: x ROUTING_KEY: y".toList) =
      "x".toList ∧
    "x".toList ≠ default_routing_key := by decide

/-- C2 (amended): for every content string in which the marker occurs at
most once, clean_content yields text with no trailing marker+key
occurrence (the trailing-anchored search fails on it), and re-running
extract_routing_key on the cleaned text returns the default key. -/
theorem C2_clean_then_extract_default (x : List Char)
    (h : countSeq routing_key_marker x ≤ 1) :
    searchKeySplit (clean_content x) = none ∧
    extract_routing_key (clean_content x) = default_routing_key := by
  have hnone : searchKeySplit (clean_content x) = none := by
    cases hs : searchCleanSplit x with
    | some pre =>
      rcases searchCleanSplit_some hs with ⟨suf, hx, hmc⟩
      have hsufm : containsSeq routing_key_marker suf = true :=
        containsSeq_marker_of_matchCleanAt hmc
      cases hk : searchKeySplit (clean_content x) with
      | none => rfl
      | some p =>
        exfalso
        have hpc : containsSeq routing_key_marker (clean_content x) = true :=
          containsSeq_marker_of_searchKeySplit hk
        have hcx : clean_content x = stripChars pre := by simp [clean_content, hs]
        rw [hcx] at hpc
        have hprec : containsSeq routing_key_marker pre = true :=
          containsSeq_of_stripChars hpc
        have h2 : 2 ≤ countSeq routing_key_marker x := by
          rw [hx]
          exact two_le_countSeq_append (by decide) hprec hsufm
        omega
    | none =>
      have hcx : clean_content x = stripChars x := by simp [clean_content, hs]
      cases hk : searchKeySplit (clean_content x) with
      | none => rfl
      | some p =>
        exfalso
        obtain ⟨p1, p2⟩ := p
        rw [hcx] at hk
        rcases searchKeySplit_some hk with ⟨suf, hsx, hmm⟩
        rcases stripChars_decomp x with ⟨a, b2, hdecomp, hwa, hwb⟩
        have hsufhead : routing_key_marker.isPrefixOf suf = true :=
          (matchKeyAt_some_spec hmm).1
        have hmext : matchKeyAt (suf ++ b2) = some p2 := matchKeyAt_append_ws hmm hwb
        have hclean : matchCleanAt (suf ++ b2) = true := by
          unfold matchCleanAt
          rcases (isPrefixOf_iff _ _).mp hsufhead with ⟨r, hr⟩
          have hdw : (suf ++ b2).dropWhile isWs = suf ++ b2 := by
            rw [hr, marker_head, List.cons_append, List.cons_append]
            exact dropWhile_cons_neg _ (by decide)
          rw [hdw, hmext]
          rfl
        have hsome : (searchCleanSplit x).isSome = true := by
          have hx2 : x = (a ++ p1) ++ (suf ++ b2) := by
            rw [hdecomp, hsx]
            simp [List.append_assoc]
          rw [hx2]
          exact searchCleanSplit_isSome_of_tail hclean
        rw [hs] at hsome
        simp at hsome
  exact ⟨hnone, by simp [extract_routing_key, hnone]⟩

/-- C2 witness: a single-marker string satisfies the hypothesis and
cleaning followed by extraction returns the default key. -/
theorem C2_clean_then_extract_default_witness :
    countSeq routing_key_marker "Hello ROUTING_KEY: yes".toList ≤ 1 ∧
    extract_routing_key (clean_content "Hello ROUTING_KEY: yes".toList) =
      default_routing_key :=
  ⟨by decide, (C2_clean_then_extract_default "Hello ROUTING_KEY: yes".toList
    (by decide)).2⟩

/-- C8 counterexample: a content string with no marker occurrence at all
(hence no trailing marker+key) is nevertheless changed by clean_content,
which unconditionally strips leading and trailing whitespace — refuting
the claim that such content is returned completely unchanged. -/
theorem C8_clean_strips_whitespace_counterexample :
    containsSeq routing_key_marker "  hello  ".toList = false ∧
    clean_content "  hello  ".toList ≠ "  hello  ".toList := by decide

/-- C8 (amended): when content has no trailing marker+key occurrence,
clean_content returns content with only its leading and trailing
whitespace stripped (Python str.strip); when a trailing marker+key match
is present, content splits as prefix ++ match and the result is the
prefix stripped of surrounding whitespace. -/
theorem C8_clean_content_strip (content : List Char) :
    (searchCleanSplit content = none → clean_content content = stripChars content) ∧
    (∀ pre, searchCleanSplit content = some pre →
      clean_content content = stripChars pre ∧
      ∃ suf, content = pre ++ suf ∧ matchCleanAt suf = true) := by
  constructor
  · intro h
    simp [clean_content, h]
  · intro pre h
    exact ⟨by simp [clean_content, h], searchCleanSplit_some h⟩

/-- C8 witness: the two branches evaluated at concrete inputs. -/
theorem C8_clean_content_strip_witness :
    clean_content " hello ".toList = "hello".toList ∧
    clean_content "Hi ROUTING_KEY: x".toList = "Hi".toList := by
  constructor
  · have h := (C8_clean_content_strip " hello ".toList).1 (by decide)
    rw [h]
    decide
  · have h := ((C8_clean_content_strip "Hi ROUTING_KEY: x".toList).2
      "Hi".toList (by decide)).1
    rw [h]
    decide

/-- C3 counterexample: content ending with the marker and the default
key (extraction confirms the trailing key is the default key, a member
of possible_keys plus the default key) is not returned unchanged: the
code only accepts keys that are members of possible_keys itself, so it
strips the trailing part and re-appends the default key in canonical
spacing, changing the string. -/
theorem C3_default_key_counterexample :
    extract_routing_key "Done ROUTING_KEY:__DEFAULT__".toList = default_routing_key ∧
    ensure_routing_key ["yes".toList, "no".toList] "Done ROUTING_KEY:__DEFAULT__".toList ≠
      "Done ROUTING_KEY:__DEFAULT__".toList ∧
    ensure_routing_key ["yes".toList, "no".toList] "Done ROUTING_KEY:__DEFAULT__".toList =
      "Done ROUTING_KEY: __DEFAULT__".toList := by decide

/-- C3 (amended): _ensure_routing_key returns content unchanged exactly
when the trailing key is a member of possible_keys itself — the default
key is not automatically legal: a trailing key outside possible_keys
(the default key included) is stripped and the default key re-appended
in canonical spacing; with no trailing marker+key the default key is
appended to the untouched content; in both of the latter cases the
re-extracted key of the result is the default key.  Scenario C holds:
"Done ROUTING_KEY: bogus" with possible_keys [yes, no] becomes
"Done ROUTING_KEY: __DEFAULT__". -/
theorem C3_ensure_routing_key_branches (possible_keys : List (List Char))
    (content : List Char) :
    (∀ pre w, searchKeySplit content = some (pre, w) → w ∈ possible_keys →
      ensure_routing_key possible_keys content = content) ∧
    (∀ pre w, searchKeySplit content = some (pre, w) → w ∉ possible_keys →
      ensure_routing_key possible_keys content =
        stripChars pre ++ (' ' :: routing_key_marker ++ (' ' :: default_routing_key)) ∧
      extract_routing_key (ensure_routing_key possible_keys content) =
        default_routing_key) ∧
    (searchKeySplit content = none →
      ensure_routing_key possible_keys content =
        content ++ (' ' :: routing_key_marker ++ (' ' :: default_routing_key)) ∧
      extract_routing_key (ensure_routing_key possible_keys content) =
        default_routing_key) ∧
    ensure_routing_key ["yes".toList, "no".toList] "Done ROUTING_KEY: bogus".toList =
      "Done ROUTING_KEY: __DEFAULT__".toList := by
  refine ⟨?_, ?_, ?_, by decide⟩
  · intro pre w h hmem
    simp [ensure_routing_key, h, hmem]
  · intro pre w h hmem
    have he : ensure_routing_key possible_keys content =
        stripChars pre ++ (' ' :: routing_key_marker ++ (' ' :: default_routing_key)) := by
      simp [ensure_routing_key, h, hmem]
    refine ⟨he, ?_⟩
    rw [he]
    have hc := searchKeySplit_canonical (stripChars pre) (w := default_routing_key)
      (by decide) (by decide)
    unfold extract_routing_key
    simp only [List.cons_append]
    rw [hc]
  · intro h
    have he : ensure_routing_key possible_keys content =
        content ++ (' ' :: routing_key_marker ++ (' ' :: default_routing_key)) := by
      simp [ensure_routing_key, h]
    refine ⟨he, ?_⟩
    rw [he]
    have hc := searchKeySplit_canonical content (w := default_routing_key)
      (by decide) (by decide)
    unfold extract_routing_key
    simp only [List.cons_append]
    rw [hc]

/-- C3 witness: a legal trailing key is preserved verbatim, and an
illegal one is replaced by the default key. -/
theorem C3_ensure_routing_key_branches_witness :
    ensure_routing_key ["ok".toList] "Hi ROUTING_KEY: ok".toList =
      "Hi ROUTING_KEY: ok".toList ∧
    ensure_routing_key ["yes".toList] "Hmm ROUTING_KEY: nah".toList =
      "Hmm ROUTING_KEY: __DEFAULT__".toList := by
  constructor
  · exact (C3_ensure_routing_key_branches ["ok".toList] _).1 "Hi ".toList "ok".toList
      (by decide) (by decide)
  · have h := ((C3_ensure_routing_key_branches ["yes".toList]
      "Hmm ROUTING_KEY: nah".toList).2.1 "Hmm ".toList "nah".toList
      (by decide) (by decide)).1
    rw [h]
    decide

/-- C5 counterexample: the error path stores content whose routing key is
error; with a graph-builder path_map whose conditional targets do not
include the error key, Router.route's lookup of that key misses (returns
none), so the key-not-found fallback branch is taken — refuting the
claim for the error path. -/
theorem C5_error_key_fallback_counterexample :
    extract_routing_key (error_content_of "boom".toList) = error_key ∧
    lookupA (extract_routing_key (error_content_of "boom".toList))
      (build_path_map [("x".toList, "n2".toList)] end_node_id) = none := by
  constructor
  · exact extract_error_content "boom".toList
  · rw [extract_error_content "boom".toList]
    decide

/-- C5 (amended): with the graph-builder path_map (conditional targets
merged with the default-key entry), the content produced by
_ensure_routing_key always carries a routing key that route's lookup
resolves without the key-not-found fallback; the error-path content of
_create_error_state resolves without fallback provided the reserved
error key is itself a key of the path_map. -/
theorem C5_stored_key_resolves (conditional : List (List Char × List Char))
    (default_target : List Char) (content msg : List Char) :
    (lookupA (extract_routing_key
        (ensure_routing_key (possible_keys_of conditional) content))
      (build_path_map conditional default_target)).isSome = true ∧
    ((lookupA error_key (build_path_map conditional default_target)).isSome = true →
      (lookupA (extract_routing_key (error_content_of msg))
        (build_path_map conditional default_target)).isSome = true) := by
  constructor
  · rcases extract_ensure_mem (possible_keys_of conditional) content with h | h
    · exact lookupA_build_path_map_possible h
    · rw [h]
      unfold build_path_map
      rw [lookupA_dictInsert_self]
      rfl
  · intro herr
    rw [extract_error_content]
    exact herr

/-- C5 witness: a path_map that does map the error key resolves both the
normal and the error content without fallback. -/
theorem C5_stored_key_resolves_witness :
    (lookupA (extract_routing_key
        (ensure_routing_key (possible_keys_of
          [("error".toList, "END".toList), ("x".toList, "n2".toList)])
          "Hi ROUTING_KEY: x".toList))
      (build_path_map [("error".toList, "END".toList), ("x".toList, "n2".toList)]
        end_node_id)).isSome = true ∧
    (lookupA (extract_routing_key (error_content_of "boom".toList))
      (build_path_map [("error".toList, "END".toList), ("x".toList, "n2".toList)]
        end_node_id)).isSome = true :=
  ⟨(C5_stored_key_resolves _ end_node_id "Hi ROUTING_KEY: x".toList "boom".toList).1,
   (C5_stored_key_resolves _ end_node_id "Hi ROUTING_KEY: x".toList "boom".toList).2
     (by decide)⟩

/-- C6: AgentNode.execute catches every exception of the guarded block —
prepare_context, model invocation, and the empty-extracted-response
check — and converts it into an error state instead of propagating: the
result in each case is _create_error_state applied to the detailed error
text; and every such error state has last_response_content of the form
"ERROR: <message> ROUTING_KEY: error", the same text stored under the
node's id in node_outputs, and its extracted routing key is error, so
execution continues routed by the error key. -/
theorem C6_agent_execute_catches (node : Node) (pk : List (List Char))
    (state : WorkflowState) (e : PyExc) (ctx : List Char)
    (invokeRes : List Char → Except PyExc LLMContent) (result : LLMContent) :
    (∀ inv : List Char → Except PyExc LLMContent,
      agent_execute node pk true true (Except.error e) inv state =
        create_error_state node state (detailed_error node e.excType e.excMsg)) ∧
    (invokeRes (add_routing_instructions node pk (prepare_prompt node ctx)) =
        Except.error e →
      agent_execute node pk true true (Except.ok ctx) invokeRes state =
        create_error_state node state (detailed_error node e.excType e.excMsg)) ∧
    (invokeRes (add_routing_instructions node pk (prepare_prompt node ctx)) =
        Except.ok result →
      stripChars (extract_content result) = [] →
      agent_execute node pk true true (Except.ok ctx) invokeRes state =
        create_error_state node state
          (detailed_error node "ValueError".toList
            "LLM returned empty response".toList)) ∧
    (∀ msg, (create_error_state node state msg).last_response_content =
        error_content_of msg ∧
      lookupA node.id (create_error_state node state msg).node_outputs =
        some (error_content_of msg) ∧
      extract_routing_key (create_error_state node state msg).last_response_content =
        error_key) := by
  refine ⟨?_, ?_, ?_, fun msg => error_state_spec node state msg⟩
  · intro inv
    rfl
  · intro hinv
    simp [agent_execute, hinv]
  · intro hinv hempty
    simp [agent_execute, hinv, hempty]

/-- C6 witness: a raising prepare_context and an empty extracted
response both produce the documented error state. -/
theorem C6_agent_execute_catches_witness :
    agent_execute ⟨"n1".toList, "N".toList, "p".toList⟩ [] true true
        (Except.error ⟨"RuntimeError".toList, "boom".toList⟩)
        (fun _ => Except.ok (LLMContent.contentStr "x".toList))
        ⟨"hi".toList, [], [], []⟩ =
      create_error_state ⟨"n1".toList, "N".toList, "p".toList⟩
        ⟨"hi".toList, [], [], []⟩
        (detailed_error ⟨"n1".toList, "N".toList, "p".toList⟩
          "RuntimeError".toList "boom".toList) ∧
    agent_execute ⟨"n1".toList, "N".toList, "p".toList⟩ [] true true
        (Except.ok "ctx".toList) (fun _ => Except.ok (LLMContent.contentStr []))
        ⟨"hi".toList, [], [], []⟩ =
      create_error_state ⟨"n1".toList, "N".toList, "p".toList⟩
        ⟨"hi".toList, [], [], []⟩
        (detailed_error ⟨"n1".toList, "N".toList, "p".toList⟩
          "ValueError".toList "LLM returned empty response".toList) :=
  ⟨(C6_agent_execute_catches ⟨"n1".toList, "N".toList, "p".toList⟩ []
      ⟨"hi".toList, [], [], []⟩ ⟨"RuntimeError".toList, "boom".toList⟩
      "ctx".toList (fun _ => Except.ok (LLMContent.contentStr "x".toList))
      (LLMContent.contentStr "x".toList)).1 _,
   (C6_agent_execute_catches ⟨"n1".toList, "N".toList, "p".toList⟩ []
      ⟨"hi".toList, [], [], []⟩ ⟨"RuntimeError".toList, "boom".toList⟩
      "ctx".toList (fun _ => Except.ok (LLMContent.contentStr []))
      (LLMContent.contentStr [])).2.2.1 rfl (by decide)⟩

/-- C4: one run of a compiled workflow executes at most recursion_limit
node steps, where recursion_limit = recursion_base +
recursion_multiplier * node_count with the defaults 10 and 3; the
two-node cycle of scenario D (A routes to B on x, B routes to A on y,
neither ever emits the default or terminal key) has recursion_limit
10 + 3 * 2 = 16 and stops after exactly 16 executed steps at a
non-terminal node (a non-completed status) instead of looping forever. -/
theorem C4_step_budget :
    (∀ (g : CompiledGraph) (input : List Char),
      (run_workflow g input (recursion_limit_of g.nodes.length)).2.2 ≤
        recursion_limit_of g.nodes.length) ∧
    recursion_limit_of 2 = 16 ∧
    cycleGraph.nodes.length = 2 ∧
    (run_workflow cycleGraph "hi".toList (recursion_limit_of 2)).2.2 = 16 ∧
    (run_workflow cycleGraph "hi".toList (recursion_limit_of 2)).2.1 ≠ end_node_id := by
  refine ⟨?_, by decide, by decide, by decide, by decide⟩
  intro g input
  exact runSteps_steps_le g _ _ _

/-- C7: evaluation of WorkflowExecutor.execute at a failing graph
invocation whose partial run had accumulated a node output (n1) — the
returned synthetic state carries the documented ERROR message but empty
node_outputs and empty current_node_id, because the except branch reads
the untouched initial_state rather than anything the graph engine
accumulated; the partial run's output is lost, contradicting the claim
(and the code's own "Return partial state" comment). -/
theorem C7_error_state_drops_partial_state :
    (executor_execute
        (fun _ => Except.error ("recursion limit reached".toList, partialW))
        "hi".toList).1 =
      ⟨"hi".toList, [],
        "ERROR: Workflow execution failed: recursion limit reached".toList, []⟩ ∧
    partialW.node_outputs ≠ [] ∧
    partialW.current_node_id ≠ [] := by decide

/-- C9 counterexample: the fully initialized manager state — reachable by
one successful initialize from the fresh manager — when initialize is
called again with the credential missing, returns False yet remains
fully initialized (is_initialized still True), refuting the claim that a
failing initialize always leaves the manager fully uninitialized. -/
theorem C9_initialize_no_reset_counterexample :
    (llm_initialize_fn llm_manager_init true false).2 = ⟨true, true, true⟩ ∧
    (llm_initialize_fn ⟨true, true, true⟩ false false).1 = false ∧
    (llm_initialize_fn ⟨true, true, true⟩ false false).2 = ⟨true, true, true⟩ ∧
    llm_is_initialized (llm_initialize_fn ⟨true, true, true⟩ false false).2 = true := by
  decide

/-- C9 (amended): a construction or tool-binding exception makes
initialize return False and fully reset the manager (llm and
llm_with_tools cleared, initialized flag False); a missing credential
makes it return False while leaving the fields exactly as they were —
so a fresh manager remains fully uninitialized, but a previously
initialized manager stays initialized. -/
theorem C9_initialize_failure_behaviour (st : LLMManagerState) (ctorFails : Bool) :
    (llm_initialize_fn st true true).1 = false ∧
    (llm_initialize_fn st true true).2 = ⟨false, false, false⟩ ∧
    (llm_initialize_fn st false ctorFails).1 = false ∧
    (llm_initialize_fn st false ctorFails).2 = st ∧
    llm_is_initialized (llm_initialize_fn llm_manager_init false ctorFails).2 = false :=
  ⟨rfl, rfl, rfl, rfl, rfl⟩

/-- C10: get_execution_summary reports nodes_executed as the size of
node_outputs, which — node_outputs being a keyed mapping with no
duplicate keys, an invariant preserved by every state update — equals
the number of distinct node ids present; a looping run that revisits a
node therefore reports strictly fewer nodes_executed than executed
steps (the one-node self-loop executes 2 steps yet reports 1); and
has_error is true exactly when the substring ERROR occurs anywhere in
last_response_content. -/
theorem C10_summary (st : WorkflowState) :
    ((st.node_outputs.map Prod.fst).Nodup →
      (get_execution_summary st).nodes_executed =
        (st.node_outputs.map Prod.fst).dedup.length) ∧
    ((get_execution_summary st).has_error = true ↔
      ∃ a b, st.last_response_content = a ++ "ERROR".toList ++ b) ∧
    (∀ (node : Node) (content : List Char),
      (st.node_outputs.map Prod.fst).Nodup →
        (((update_state node st content).node_outputs).map Prod.fst).Nodup) ∧
    ((get_execution_summary (run_workflow loopGraph "hi".toList 2).1).nodes_executed
        = 1 ∧
      (run_workflow loopGraph "hi".toList 2).2.2 = 2) := by
  refine ⟨?_, ?_, ?_, by decide, by decide⟩
  · intro h
    simp [get_execution_summary, List.dedup_eq_self.mpr h]
  · exact containsSeq_iff "ERROR".toList st.last_response_content
  · intro node content h
    exact dictInsert_keys_nodup node.id content h

/-- C10 witness: a two-entry summary with an ERROR final output. -/
theorem C10_summary_witness :
    (get_execution_summary ⟨"hi".toList,
        [("a".toList, "o1".toList), ("b".toList, "o2".toList)],
        "ERROR: x".toList, "b".toList⟩).nodes_executed = 2 ∧
    (get_execution_summary ⟨"hi".toList,
        [("a".toList, "o1".toList), ("b".toList, "o2".toList)],
        "ERROR: x".toList, "b".toList⟩).has_error = true := by
  constructor
  · have h := (C10_summary ⟨"hi".toList,
      [("a".toList, "o1".toList), ("b".toList, "o2".toList)],
      "ERROR: x".toList, "b".toList⟩).1 (by decide)
    rw [h]
    decide
  · exact (C10_summary ⟨"hi".toList,
      [("a".toList, "o1".toList), ("b".toList, "o2".toList)],
      "ERROR: x".toList, "b".toList⟩).2.1.mpr ⟨[], ": x".toList, by decide⟩

end WorkflowBuilder
